import Mathlib

/-!
Verification of the tabular Q-learning core (`BayesianAgent`, its action-value
table `QMap`, and the numeric kernel) of the reinforcement-learning-rust
repository.

Embedding conventions:
* Rust `f64` values are modelled as exact rationals (`ℚ`); the constants
  `f64::MAX` and `f64::EPSILON` are modelled by their exact rational values.
* Rust `i64` counters are modelled as `Int`.
* State and action identifiers are `String`s, as in the source.
* The two-level `HashMap` of `QMap` is modelled as an association list so that
  the (unspecified) iteration order of the hash map is an explicit part of the
  model; hash-map `entry().or_insert` / `insert` become `ensureBucket` / `setA`.
* The caller-supplied `Stater` trait object is a structure of pure functions;
  `transition` additionally reports how many times `state.apply` was invoked.
-/

/-- `math::bellman` from `src/internal/math/mod.rs`:
`learning_rate.mul_add(discount_factor.mul_add(optimal_future_value, reward) - old_value, old_value)`. -/
def bellman (old_value learning_rate reward discount_factor optimal_future_value : ℚ) : ℚ :=
  learning_rate * (discount_factor * optimal_future_value + reward - old_value) + old_value

/-- `math::safe_divide` from `src/internal/math/mod.rs`: returns 0 if the divisor is 0. -/
def safe_divide (dividend divisor : ℚ) : ℚ :=
  if divisor = 0 then 0 else dividend / divisor

/-- `math::bayesian_average` from `src/internal/math/mod.rs`:
`safe_divide(c.mul_add(m, n * v), c + n)`. -/
def bayesian_average (c n m v : ℚ) : ℚ :=
  safe_divide (c * m + n * v) (c + n)

/-- Exact rational value of `f64::MAX`, i.e. `(2^53 - 1) * 2^971`
(see `f64Max_eq`). -/
def f64Max : ℚ := 179769313486231570814527423731704356798070567525844996598917476803157260780028538760589558632766878171540458953514382464234321326889464182768467546703537516986049910576551282076245490090389328944075868508455133942304583236903222948165808559332123348274797826204144723168738177180919299881250404026184124858368

/-- Exact rational value of `f64::EPSILON = 2^-52` (see `epsF_eq`). -/
def epsF : ℚ := 1 / 4503599627370496

/-- Lexicographic comparison of code-point lists; models Rust's `str::cmp`
order used by `best_actions.sort_by(|x, y| x.a.cmp(y.a))`. -/
def strLeAux : List Char → List Char → Bool
  | [], _ => true
  | _ :: _, [] => false
  | a :: as, b :: bs =>
    if a.toNat < b.toNat then true
    else if b.toNat < a.toNat then false
    else strLeAux as bs

/-- Lexicographic `≤` on strings (total, transitive, antisymmetric; decidable
and kernel-computable). -/
def strLe (a b : String) : Bool := strLeAux a.data b.data

/-- `errors::LearnerError`: an error carrying a message string. -/
structure LearnerError where
  msg : String
deriving DecidableEq

/-- `actionstats::ActionStats`: call count, raw q-value, weighted q-value.
`Default` gives the all-zero record. -/
structure ActionStats where
  call_count : Int := 0
  q_raw : ℚ := 0
  q_weighted : ℚ := 0
deriving DecidableEq

/-- `AS::default()`: the all-zero statistics record. -/
def ActionStats.default : ActionStats := {}

/-- The caller-supplied `Stater` capability contract (`iface::Stater`),
restricted to what the agent observes: the stable id, the possible-action id
list, compatibility and effect functions, and id-to-action resolution.
Actions are represented by their stable id strings (`Actioner::id`). -/
structure Stater where
  id : String
  possible_actions : List String
  action_is_compatible : String → Bool
  apply : String → Except LearnerError Unit
  get_action : String → Except LearnerError String

/-- A bucket: the per-state `HashMap<action_id, ActionStats>`, as an
association list in iteration order. -/
abbrev Bucket := List (String × ActionStats)

/-- `internal::datastructures::QMap.data`: `HashMap<state_id, bucket>`. -/
abbrev QMap := List (String × Bucket)

/-- Association-list lookup (`HashMap::get`). -/
def getA {α : Type} : List (String × α) → String → Option α
  | [], _ => none
  | (k2, v2) :: t, k => if k2 = k then some v2 else getA t k

/-- Association-list insert (`HashMap::insert`): overwrites in place if the key
is present, otherwise appends the new binding. -/
def setA {α : Type} : List (String × α) → String → α → List (String × α)
  | [], k, v => [(k, v)]
  | (k2, v2) :: t, k, v => if k2 = k then (k, v) :: t else (k2, v2) :: setA t k v

/-- The bucket stored for a state (empty if the state is absent). -/
def getBucket (q : QMap) (s : String) : Bucket := (getA q s).getD []

/-- `QMap::get_actions_for_state`'s mutating part:
`self.data.entry(state.id()).or_insert(HashMap::new())` — registers an empty
bucket for a never-seen state. -/
def ensureBucket (q : QMap) (s : String) : QMap :=
  match getA q s with
  | some _ => q
  | none => q ++ [(s, [])]

/-- The stored statistics for a (state, action) pair, if any
(the read part of `QMap::get_stats`). -/
def lookupStats (q : QMap) (s a : String) : Option ActionStats :=
  getA (getBucket q s) a

/-- `QMap::update_stats`: `get_actions_for_state(state).insert(action.id(), stats)`. -/
def update_stats (q : QMap) (s a : String) (st : ActionStats) : QMap :=
  setA (ensureBucket q s) s (setA (getBucket q s) a st)

/-- A key list without duplicates — the invariant every real `HashMap` has. -/
def NodupKeys {α : Type} (l : List (String × α)) : Prop :=
  (l.map Prod.fst).Nodup

/-- Call count of a (state, action) pair, 0 when no record exists. -/
def callsOf (q : QMap) (s a : String) : Int :=
  ((lookupStats q s a).getD ActionStats.default).call_count

/-- Raw q-value of a (state, action) pair, 0 when no record exists. -/
def rawOf (q : QMap) (s a : String) : ℚ :=
  ((lookupStats q s a).getD ActionStats.default).q_raw

/-- `bayesianagent::BayesianAgent`: tie-breaker closure, table, and the three
immutable configuration constants. -/
structure BayesianAgent where
  tie_breaker : Nat → Nat
  qmap : QMap
  learning_rate : ℚ
  discount_factor : ℚ
  priming_threshold : Int

/-- Accumulator of the first loop of `apply_action_weights`:
`raw_value_sum`, `existing_action_count`, and the (mutated) table. -/
structure FoldAcc where
  raw_value_sum : ℚ
  existing_action_count : Int
  q : QMap

/-- One iteration of the first loop of `apply_action_weights`: accumulate the
raw value of an existing record, or insert a default record. -/
def aaw_step (sid : String) (acc : FoldAcc) (aid : String) : FoldAcc :=
  match lookupStats acc.q sid aid with
  | some s =>
    { acc with raw_value_sum := acc.raw_value_sum + s.q_raw,
               existing_action_count := acc.existing_action_count + 1 }
  | none => { acc with q := update_stats acc.q sid aid ActionStats.default }

/-- Recomputation of one record's weighted value from the state mean
(the body of the second loop of `apply_action_weights`). -/
def weightFn (pt : Int) (mean : ℚ) (e : ActionStats) : ActionStats :=
  { e with q_weighted := bayesian_average (pt : ℚ) ((e.call_count : ℚ)) mean e.q_raw }

/-- `BayesianAgent::apply_action_weights` (the weight-refresh pass): sum raw
values over existing records of the state's possible actions (inserting
default records for missing ones), take the safe mean, then recompute every
stored record's weighted value via the Bayesian average. -/
def apply_action_weights (pt : Int) (q : QMap) (state : Stater) : QMap :=
  let acc := state.possible_actions.foldl (aaw_step state.id) ⟨0, 0, q⟩
  let mean := safe_divide acc.raw_value_sum ((acc.existing_action_count : ℚ))
  let q1 := ensureBucket acc.q state.id
  setA q1 state.id ((getBucket q1 state.id).map (fun p => (p.1, weightFn pt mean p.2)))

/-- The accumulator produced by the first loop of `apply_action_weights`. -/
def aawAcc (q : QMap) (state : Stater) : FoldAcc :=
  state.possible_actions.foldl (aaw_step state.id) ⟨0, 0, q⟩

/-- The state mean computed by `apply_action_weights`. -/
def aawMean (q : QMap) (state : Stater) : ℚ :=
  safe_divide (aawAcc q state).raw_value_sum (((aawAcc q state).existing_action_count : ℚ))

/-- One iteration of the running-maximum loop of `get_best_value`. -/
def bmaxStep (best : ℚ) (p : String × ActionStats) : ℚ :=
  if p.2.q_weighted > best then p.2.q_weighted else best

/-- `BayesianAgent::get_best_value`: running maximum of the weighted values of
the state's recorded actions, starting from (floored at) `0.0`. -/
def get_best_value (q : QMap) (state : Stater) : ℚ :=
  (getBucket q state.id).foldl bmaxStep 0

/-- `BayesianAgent::learn`: no-op without a previous state; otherwise fetch the
old stats, refresh the current state's weights, Bellman-update the raw value
from the old weighted value and the best future value, bump the call count,
write back, and refresh the previous state's weights. -/
def learn (ag : BayesianAgent) (previous_state : Option Stater) (action_taken : String)
    (current_state : Stater) (reward : ℚ) : BayesianAgent :=
  match previous_state with
  | none => ag
  | some prev =>
    let q0 := ensureBucket ag.qmap prev.id
    let stats := (lookupStats q0 prev.id action_taken).getD ActionStats.default
    let q1 := apply_action_weights ag.priming_threshold q0 current_state
    let new_value := bellman stats.q_weighted ag.learning_rate reward ag.discount_factor
      (get_best_value q1 current_state)
    let stats2 := { stats with call_count := stats.call_count + 1, q_raw := new_value }
    let q2 := update_stats q1 prev.id action_taken stats2
    { ag with qmap := apply_action_weights ag.priming_threshold q2 prev }

/-- The apostrophe character used by the `recommend_action` error message. -/
def squote : String := String.singleton (Char.ofNat 39)

/-- One iteration of the best-action scan of `recommend_action`: a strictly
greater weighted value resets the candidate list, a value within
`f64::EPSILON` of the running best is appended, anything else is skipped. -/
def bestStep (acc : List (String × ℚ) × ℚ) (p : String × ActionStats) :
    List (String × ℚ) × ℚ :=
  let v := p.2.q_weighted
  if v > acc.2 then ([(p.1, v)], v)
  else if |v - acc.2| < epsF then (acc.1 ++ [(p.1, v)], acc.2)
  else acc

/-- The selection phase of `recommend_action`, applied to the state's (already
refreshed) bucket: scan for the best weighted value (collecting epsilon ties),
fail when no candidate exists, otherwise sort the tied ids lexicographically,
pick one with the tie-breaker, and resolve it through `state.get_action`. -/
def selectFrom (tb : Nat → Nat) (state : Stater) (B : Bucket) :
    Except LearnerError String :=
  let r := B.foldl bestStep ([], -f64Max)
  if r.1.isEmpty then
    .error ⟨"state " ++ squote ++ state.id ++ squote ++ " reports no possible actions"⟩
  else
    let sorted := (r.1.map Prod.fst).insertionSort (fun a b => strLe a b = true)
    state.get_action (sorted.getD (tb sorted.length) "")

/-- `BayesianAgent::recommend_action`: refresh the state's weights, then run
the best-action selection over the state's bucket.  The mutated table is
returned alongside the result (the Rust method takes `&mut self`); both the
error path and the success path leave the same refreshed table. -/
def recommend_action (ag : BayesianAgent) (state : Stater) :
    BayesianAgent × Except LearnerError String :=
  let q1 := apply_action_weights ag.priming_threshold ag.qmap state
  ({ ag with qmap := q1 },
    selectFrom ag.tie_breaker state (getBucket q1 state.id))

/-- `BayesianAgent::transition`: reject an incompatible action with an error
carrying both ids, otherwise delegate to `state.apply` and return its result
verbatim.  The `Nat` component counts how many times `state.apply` was
invoked; the agent is returned unchanged (the method takes `&self`). -/
def transition (ag : BayesianAgent) (current_state : Stater) (action : String) :
    BayesianAgent × Except LearnerError Unit × Nat :=
  (ag,
    if current_state.action_is_compatible action then (current_state.apply action, 1)
    else
      (.error ⟨"action " ++ action ++ " is not compatible with state " ++ current_state.id⟩, 0))

/-- Decidable equality for `Except` results. -/
instance {e a : Type} [DecidableEq e] [DecidableEq a] : DecidableEq (Except e a) := fun x y =>
  match x, y with
  | .ok v, .ok w => decidable_of_iff (v = w) (by simp)
  | .error v, .error w => decidable_of_iff (v = w) (by simp)
  | .ok _, .error _ => isFalse (by simp)
  | .error _, .ok _ => isFalse (by simp)

/-- Running maximum of weighted values over a bucket, from a given floor. -/
def runMax (b0 : ℚ) (B : Bucket) : ℚ := B.foldl bmaxStep b0

/-- The candidate list the best-action scan produces when every weighted value
is either equal to or at least `f64::EPSILON` away from every other: the
entries whose weighted value equals the maximum, in encounter order. -/
def tiedOf (B : Bucket) (M : ℚ) : List (String × ℚ) :=
  (B.filter (fun p => decide (p.2.q_weighted = M))).map (fun p => (p.1, p.2.q_weighted))

/-- The stats record `learn` starts from for `(previous_state, action)`: the
record stored before the call, or the all-zero default when absent. -/
def learnOld (ag : BayesianAgent) (prev : Stater) (a : String) : ActionStats :=
  (lookupStats ag.qmap prev.id a).getD ActionStats.default

/-- The table as `learn` sees it right after refreshing the current state's
weights (the point at which `best_future` is read). -/
def learnQCur (ag : BayesianAgent) (prev cur : Stater) : QMap :=
  apply_action_weights ag.priming_threshold (ensureBucket ag.qmap prev.id) cur

/-- The `best_future` value used by `learn`'s Bellman update. -/
def learnBest (ag : BayesianAgent) (prev cur : Stater) : ℚ :=
  get_best_value (learnQCur ag prev cur) cur

/-- The stats record `learn` actually fetches (through `get_stats`, which
ensures the previous state's bucket first); equal to `learnOld` by
`lookupStats_ensureBucket`. -/
def learnFetched (ag : BayesianAgent) (prev : Stater) (a : String) : ActionStats :=
  (lookupStats (ensureBucket ag.qmap prev.id) prev.id a).getD ActionStats.default

/-- The record `learn` writes back for `(previous_state, action)`. -/
def learnNewStats (ag : BayesianAgent) (prev : Stater) (a : String) (cur : Stater)
    (reward : ℚ) : ActionStats :=
  { learnFetched ag prev a with
    call_count := (learnFetched ag prev a).call_count + 1,
    q_raw := bellman (learnFetched ag prev a).q_weighted ag.learning_rate reward
      ag.discount_factor (learnBest ag prev cur) }

/-! ### Concrete fixtures used by witnesses and counterexamples -/

/-- Rational value of `2^-53` (half of `f64::EPSILON`), used to build two
distinct weighted values that are closer than `f64::EPSILON`. -/
def eps53 : ℚ := 1 / 9007199254740992

/-- A state with id `A` and actions `X`, `Y`, `Z` (mirrors the repo's own
`learn` unit test). -/
def stateA : Stater := ⟨"A", ["X", "Y", "Z"], fun _ => true, fun _ => .ok (), fun a => .ok a⟩

/-- A state with id `B` and actions `X`, `Y`, `Z`. -/
def stateB : Stater := ⟨"B", ["X", "Y", "Z"], fun _ => true, fun _ => .ok (), fun a => .ok a⟩

/-- The agent of the repo's `learn` unit test: `priming_threshold = 10`,
`learning_rate = 1`, `discount_factor = 0`, with a constant tie-breaker. -/
def agentC1 : BayesianAgent := ⟨fun _ => 0, [], 1, 0, 10⟩

/-- A state with id `S` and no possible actions. -/
def stateEmpty : Stater := ⟨"S", [], fun _ => true, fun _ => .ok (), fun a => .ok a⟩

/-- A fresh agent with an empty table and a constant tie-breaker. -/
def agentEmpty : BayesianAgent := ⟨fun _ => 0, [], 0, 0, 0⟩

/-- A state with id `S` and actions `P`, `Q`. -/
def statePQ : Stater := ⟨"S", ["P", "Q"], fun _ => true, fun _ => .ok (), fun a => .ok a⟩

/-- Bucket for `statePQ` in one iteration order: the weighted values produced
from these raw values differ by `2^-53 < f64::EPSILON`. -/
def bucketPQ : Bucket := [("P", ⟨1, 1/2, 0⟩), ("Q", ⟨1, 1/2 + eps53, 0⟩)]

/-- The same bucket in the opposite iteration order. -/
def bucketQP : Bucket := [("Q", ⟨1, 1/2 + eps53, 0⟩), ("P", ⟨1, 1/2, 0⟩)]

/-- An agent with priming threshold 0 holding the given bucket for state `S`. -/
def agentWith (b : Bucket) : BayesianAgent := ⟨fun _ => 0, [("S", b)], 0, 0, 0⟩

/-- A state with id `A` and actions `X`, `Y` (for the refresh-pass
counterexample). -/
def stateXY : Stater := ⟨"A", ["X", "Y"], fun _ => true, fun _ => .ok (), fun a => .ok a⟩

/-- A table where action `X` of state `A` has raw value 1 but action `Y` has
no record yet. -/
def qC5 : QMap := [("A", [("X", ⟨0, 1, 0⟩)])]

/-- A state whose only compatible action is `go`. -/
def stateGo : Stater :=
  ⟨"S", ["go"], fun a => a == "go", fun a => if a == "go" then .ok () else .error ⟨"boom"⟩,
    fun a => .ok a⟩

/-- A table where both actions of `stateXY` already have records. -/
def qAllPresent : QMap := [("A", [("X", ⟨0, 1, 0⟩), ("Y", ⟨2, 3, 4⟩)])]

/-! ### Association-list lemmas -/

theorem f64Max_eq : f64Max = (2 ^ 53 - 1) * 2 ^ 971 := by norm_num [f64Max]

theorem epsF_eq : epsF = 1 / 2 ^ 52 := by norm_num [epsF]

theorem getA_setA_self {α : Type} (l : List (String × α)) (k : String) (v : α) :
    getA (setA l k v) k = some v := by
  induction l with
  | nil => simp [getA, setA]
  | cons h t ih =>
    obtain ⟨k2, v2⟩ := h
    by_cases hk : k2 = k
    · simp [setA, hk, getA]
    · simp [setA, hk, getA, ih]

theorem getA_setA_ne {α : Type} (l : List (String × α)) (k k' : String) (v : α)
    (h : k' ≠ k) : getA (setA l k v) k' = getA l k' := by
  have hk' : ¬ (k = k') := fun hh => h hh.symm
  induction l with
  | nil => simp [getA, setA, hk']
  | cons p t ih =>
    obtain ⟨k2, v2⟩ := p
    by_cases hk : k2 = k
    · subst hk
      simp [setA, getA, hk']
    · simp only [setA, if_neg hk, getA]
      by_cases hk2 : k2 = k'
      · simp [hk2]
      · simp [hk2, ih]

theorem getA_append_none {α : Type} (l l2 : List (String × α)) (k : String)
    (h : getA l k = none) : getA (l ++ l2) k = getA l2 k := by
  induction l with
  | nil => simp
  | cons p t ih =>
    obtain ⟨k2, v2⟩ := p
    by_cases hk : k2 = k
    · simp [getA, hk] at h
    · simp only [getA, if_neg hk] at h
      simpa [getA, hk] using ih h

theorem getA_append_some {α : Type} (l l2 : List (String × α)) (k : String) (v : α)
    (h : getA l k = some v) : getA (l ++ l2) k = some v := by
  induction l with
  | nil => simp [getA] at h
  | cons p t ih =>
    obtain ⟨k2, v2⟩ := p
    by_cases hk : k2 = k
    · simp only [getA, if_pos hk] at h
      simp [getA, hk, h]
    · simp only [getA, if_neg hk] at h
      simpa [getA, hk] using ih h

theorem setA_of_getA_none {α : Type} (l : List (String × α)) (k : String) (v : α)
    (h : getA l k = none) : setA l k v = l ++ [(k, v)] := by
  induction l with
  | nil => simp [setA]
  | cons p t ih =>
    obtain ⟨k2, v2⟩ := p
    by_cases hk : k2 = k
    · simp [getA, hk] at h
    · simp only [getA, if_neg hk] at h
      simp [setA, hk, ih h]

theorem setA_of_getA_some {α : Type} (l : List (String × α)) (k : String) (v : α)
    (h : getA l k = some v) : setA l k v = l := by
  induction l with
  | nil => simp [getA] at h
  | cons p t ih =>
    obtain ⟨k2, v2⟩ := p
    by_cases hk : k2 = k
    · simp only [getA, if_pos hk] at h
      injection h with h
      simp [setA, hk, h]
    · simp only [getA, if_neg hk] at h
      simp [setA, hk, ih h]

theorem setA_setA {α : Type} (l : List (String × α)) (k : String) (v w : α) :
    setA (setA l k v) k w = setA l k w := by
  induction l with
  | nil => simp [setA]
  | cons p t ih =>
    obtain ⟨k2, v2⟩ := p
    by_cases hk : k2 = k
    · simp [setA, hk]
    · simp [setA, hk, ih]

theorem getA_notMemKeys {α : Type} (l : List (String × α)) (k : String)
    (h : getA l k = none) : k ∉ l.map Prod.fst := by
  induction l with
  | nil => simp
  | cons p t ih =>
    obtain ⟨k2, v2⟩ := p
    by_cases hk : k2 = k
    · simp [getA, hk] at h
    · simp only [getA, if_neg hk] at h
      simp only [List.map_cons, List.mem_cons, not_or]
      exact ⟨fun hh => hk hh.symm, ih h⟩

theorem getA_mapVals {α β : Type} (l : List (String × α)) (f : α → β) (k : String) :
    getA (l.map (fun p => (p.1, f p.2))) k = (getA l k).map f := by
  induction l with
  | nil => simp [getA]
  | cons p t ih =>
    obtain ⟨k2, v2⟩ := p
    by_cases hk : k2 = k
    · simp [getA, hk]
    · simp [getA, hk, ih]

theorem getA_perm {α : Type} {l1 l2 : List (String × α)} (h : l1.Perm l2)
    (hn : NodupKeys l1) (k : String) : getA l1 k = getA l2 k := by
  induction h with
  | nil => rfl
  | cons x h ih =>
    obtain ⟨k2, v2⟩ := x
    unfold NodupKeys at hn
    simp only [List.map_cons] at hn
    have hn' : NodupKeys _ := (List.nodup_cons.mp hn).2
    by_cases hk : k2 = k
    · simp [getA, hk]
    · simp [getA, hk, ih hn']
  | swap x y t =>
    obtain ⟨kx, vx⟩ := x
    obtain ⟨ky, vy⟩ := y
    unfold NodupKeys at hn
    simp only [List.map_cons] at hn
    have hny : ky ∉ kx :: List.map Prod.fst t := (List.nodup_cons.mp hn).1
    have hxy : ky ≠ kx := fun hh => hny (by simp [hh])
    by_cases hkx : kx = k
    · by_cases hky : ky = k
      · exact absurd (hky.trans hkx.symm) hxy
      · simp [getA, hkx, hky]
    · by_cases hky : ky = k
      · simp [getA, hkx, hky]
      · simp [getA, hkx, hky]
  | @trans la lb lc h1 h2 ih1 ih2 =>
    have hn2 : NodupKeys lb := by
      unfold NodupKeys at hn ⊢
      exact (h1.map Prod.fst).nodup_iff.mp hn
    exact (ih1 hn).trans (ih2 hn2)

theorem nodupKeys_append_single {α : Type} (l : List (String × α)) (k : String) (v : α)
    (hn : NodupKeys l) (h : getA l k = none) : NodupKeys (l ++ [(k, v)]) := by
  unfold NodupKeys at hn ⊢
  rw [List.map_append]
  simp only [List.map_cons, List.map_nil]
  refine List.Nodup.append hn (List.nodup_singleton _) ?_
  intro a ha hb
  simp only [List.mem_singleton] at hb
  subst hb
  exact getA_notMemKeys l a h ha

/-! ### Table-operation lemmas -/

theorem getA_ensureBucket_self (q : QMap) (s : String) :
    getA (ensureBucket q s) s = some (getBucket q s) := by
  unfold ensureBucket getBucket
  cases h : getA q s with
  | some b => simp [h]
  | none => simp [getA_append_none q _ s h, getA]

theorem getA_ensureBucket_ne (q : QMap) (s s' : String) (h : s' ≠ s) :
    getA (ensureBucket q s) s' = getA q s' := by
  unfold ensureBucket
  cases hq : getA q s with
  | some b => rfl
  | none =>
    cases hq' : getA q s' with
    | some b => exact getA_append_some q _ s' b hq'
    | none =>
      rw [getA_append_none q _ s' hq']
      have hss : ¬ s = s' := fun hh => h hh.symm
      simp [getA, hss]

theorem getBucket_ensureBucket (q : QMap) (s s' : String) :
    getBucket (ensureBucket q s) s' = getBucket q s' := by
  by_cases h : s' = s
  · subst h
    unfold getBucket
    rw [getA_ensureBucket_self]
    simp [getBucket]
  · unfold getBucket
    rw [getA_ensureBucket_ne q s s' h]

theorem lookupStats_ensureBucket (q : QMap) (s s' a : String) :
    lookupStats (ensureBucket q s) s' a = lookupStats q s' a := by
  unfold lookupStats
  rw [getBucket_ensureBucket]

theorem lookupStats_update_self (q : QMap) (s a : String) (st : ActionStats) :
    lookupStats (update_stats q s a st) s a = some st := by
  unfold lookupStats update_stats getBucket
  rw [getA_setA_self]
  simp [getA_setA_self]

theorem lookupStats_update_ne (q : QMap) (s a s' a' : String) (st : ActionStats)
    (h : ¬ (s' = s ∧ a' = a)) :
    lookupStats (update_stats q s a st) s' a' = lookupStats q s' a' := by
  unfold update_stats
  by_cases hs : s' = s
  · subst hs
    have ha : a' ≠ a := fun hh => h ⟨rfl, hh⟩
    unfold lookupStats getBucket
    rw [getA_setA_self]
    simp only [Option.getD_some]
    rw [getA_setA_ne _ a a' _ ha]
  · unfold lookupStats getBucket
    rw [getA_setA_ne _ s s' _ hs, getA_ensureBucket_ne q s s' hs]

theorem getA_update_ne (q : QMap) (s a s' : String) (st : ActionStats) (h : s' ≠ s) :
    getA (update_stats q s a st) s' = getA q s' := by
  unfold update_stats
  rw [getA_setA_ne _ s s' _ h, getA_ensureBucket_ne q s s' h]

/-! ### Frame lemmas for the weight-refresh pass -/

theorem aaw_fold_getA_ne (sid : String) (acts : List String) (acc : FoldAcc) (s' : String)
    (h : s' ≠ sid) :
    getA (acts.foldl (aaw_step sid) acc).q s' = getA acc.q s' := by
  induction acts generalizing acc with
  | nil => rfl
  | cons a t ih =>
    rw [List.foldl_cons, ih]
    unfold aaw_step
    cases hs : lookupStats acc.q sid a with
    | some st => rfl
    | none => exact getA_update_ne acc.q sid a s' _ h

theorem aaw_step_callsOf (sid a : String) (acc : FoldAcc) (s' a' : String) :
    callsOf (aaw_step sid acc a).q s' a' = callsOf acc.q s' a' ∧
      rawOf (aaw_step sid acc a).q s' a' = rawOf acc.q s' a' := by
  unfold aaw_step
  cases hs : lookupStats acc.q sid a with
  | some st => exact ⟨rfl, rfl⟩
  | none =>
    have key : lookupStats (update_stats acc.q sid a ActionStats.default) s' a' =
        (lookupStats acc.q s' a').getD ActionStats.default ∨
        lookupStats (update_stats acc.q sid a ActionStats.default) s' a' =
        lookupStats acc.q s' a' := by
      by_cases hsa : s' = sid ∧ a' = a
      · obtain ⟨h1, h2⟩ := hsa
        subst h1; subst h2
        left
        rw [lookupStats_update_self]
        unfold lookupStats at hs
        unfold lookupStats
        rw [hs]
        rfl
      · right
        exact lookupStats_update_ne acc.q sid a s' a' _ hsa
    constructor
    · show callsOf (update_stats acc.q sid a ActionStats.default) s' a' = callsOf acc.q s' a'
      unfold callsOf
      rcases key with hk | hk <;> rw [hk] <;> cases lookupStats acc.q s' a' <;> rfl
    · show rawOf (update_stats acc.q sid a ActionStats.default) s' a' = rawOf acc.q s' a'
      unfold rawOf
      rcases key with hk | hk <;> rw [hk] <;> cases lookupStats acc.q s' a' <;> rfl

theorem aaw_fold_callsOf (sid : String) (acts : List String) (acc : FoldAcc) (s' a' : String) :
    callsOf (acts.foldl (aaw_step sid) acc).q s' a' = callsOf acc.q s' a' ∧
      rawOf (acts.foldl (aaw_step sid) acc).q s' a' = rawOf acc.q s' a' := by
  induction acts generalizing acc with
  | nil => exact ⟨rfl, rfl⟩
  | cons a t ih =>
    rw [List.foldl_cons]
    obtain ⟨h1, h2⟩ := ih (aaw_step sid acc a)
    obtain ⟨g1, g2⟩ := aaw_step_callsOf sid a acc s' a'
    exact ⟨h1.trans g1, h2.trans g2⟩

theorem aaw_fold_present (sid : String) (acts : List String) (acc : FoldAcc) (s' a' : String)
    (st : ActionStats) (h : lookupStats acc.q s' a' = some st) :
    lookupStats (acts.foldl (aaw_step sid) acc).q s' a' = some st := by
  induction acts generalizing acc with
  | nil => exact h
  | cons a t ih =>
    rw [List.foldl_cons]
    refine ih _ ?_
    unfold aaw_step
    cases hs : lookupStats acc.q sid a with
    | some st2 => exact h
    | none =>
      have hne : ¬ (s' = sid ∧ a' = a) := by
        rintro ⟨h1, h2⟩
        subst h1; subst h2
        rw [h] at hs
        cases hs
      rw [lookupStats_update_ne acc.q sid a s' a' _ hne]
      exact h

/-! ### Structural lemmas for `apply_action_weights` -/

theorem aaw_unfold (pt : Int) (q : QMap) (state : Stater) :
    apply_action_weights pt q state =
      setA (ensureBucket (aawAcc q state).q state.id) state.id
        ((getBucket (ensureBucket (aawAcc q state).q state.id) state.id).map
          (fun p => (p.1, weightFn pt (aawMean q state) p.2))) := rfl

theorem aaw_getA_ne (pt : Int) (q : QMap) (state : Stater) (s' : String)
    (h : s' ≠ state.id) :
    getA (apply_action_weights pt q state) s' = getA q s' := by
  rw [aaw_unfold]
  rw [getA_setA_ne _ state.id s' _ h, getA_ensureBucket_ne _ state.id s' h]
  exact aaw_fold_getA_ne state.id state.possible_actions _ s' h

theorem getBucket_setA_self (q : QMap) (s : String) (b : Bucket) :
    getBucket (setA q s b) s = b := by
  unfold getBucket
  rw [getA_setA_self]
  rfl

theorem aaw_lookup_self (pt : Int) (q : QMap) (state : Stater) (a' : String) :
    lookupStats (apply_action_weights pt q state) state.id a' =
      (lookupStats (aawAcc q state).q state.id a').map
        (weightFn pt (aawMean q state)) := by
  rw [aaw_unfold]
  unfold lookupStats
  rw [getBucket_setA_self, getA_mapVals, getBucket_ensureBucket]

theorem aaw_lookup_ne (pt : Int) (q : QMap) (state : Stater) (s' a' : String)
    (h : s' ≠ state.id) :
    lookupStats (apply_action_weights pt q state) s' a' = lookupStats q s' a' := by
  unfold lookupStats getBucket
  rw [aaw_getA_ne pt q state s' h]

theorem weightFn_getD_call (o : Option ActionStats) (pt : Int) (m : ℚ) :
    ((o.map (weightFn pt m)).getD ActionStats.default).call_count =
      (o.getD ActionStats.default).call_count := by
  cases o <;> rfl

theorem weightFn_getD_raw (o : Option ActionStats) (pt : Int) (m : ℚ) :
    ((o.map (weightFn pt m)).getD ActionStats.default).q_raw =
      (o.getD ActionStats.default).q_raw := by
  cases o <;> rfl

theorem aaw_callsOf (pt : Int) (q : QMap) (state : Stater) (s' a' : String) :
    callsOf (apply_action_weights pt q state) s' a' = callsOf q s' a' ∧
      rawOf (apply_action_weights pt q state) s' a' = rawOf q s' a' := by
  by_cases h : s' = state.id
  · subst h
    have hfold := aaw_fold_callsOf state.id state.possible_actions ⟨0, 0, q⟩ state.id a'
    have hl := aaw_lookup_self pt q state a'
    constructor
    · unfold callsOf
      rw [hl, weightFn_getD_call]
      exact hfold.1
    · unfold rawOf
      rw [hl, weightFn_getD_raw]
      exact hfold.2
  · have hl := aaw_lookup_ne pt q state s' a' h
    unfold callsOf rawOf
    rw [hl]
    exact ⟨rfl, rfl⟩

theorem aaw_present (pt : Int) (q : QMap) (state : Stater) (s' a' : String)
    (e : ActionStats) (h : lookupStats q s' a' = some e) :
    ∃ e', lookupStats (apply_action_weights pt q state) s' a' = some e' ∧
      e'.call_count = e.call_count ∧ e'.q_raw = e.q_raw := by
  by_cases hs : s' = state.id
  · subst hs
    have hf : lookupStats (aawAcc q state).q state.id a' = some e :=
      aaw_fold_present state.id state.possible_actions ⟨0, 0, q⟩ state.id a' e h
    refine ⟨weightFn pt (aawMean q state) e, ?_, rfl, rfl⟩
    rw [aaw_lookup_self, hf]
    rfl
  · exact ⟨e, (aaw_lookup_ne pt q state s' a' hs).trans h, rfl, rfl⟩

/-! ### Running-maximum lemmas for `get_best_value` -/

theorem bmaxStep_eq_max (b : ℚ) (p : String × ActionStats) :
    bmaxStep b p = max b p.2.q_weighted := by
  unfold bmaxStep
  rcases le_or_lt p.2.q_weighted b with h | h
  · rw [if_neg (not_lt.mpr h), max_eq_left h]
  · rw [if_pos h, max_eq_right h.le]

theorem foldl_bmax_init_le (B : Bucket) (b0 : ℚ) : b0 ≤ B.foldl bmaxStep b0 := by
  induction B generalizing b0 with
  | nil => exact le_refl _
  | cons p t ih =>
    rw [List.foldl_cons]
    refine le_trans ?_ (ih (bmaxStep b0 p))
    rw [bmaxStep_eq_max]
    exact le_max_left _ _

theorem foldl_bmax_mem_le (B : Bucket) (b0 : ℚ) :
    ∀ p ∈ B, p.2.q_weighted ≤ B.foldl bmaxStep b0 := by
  induction B generalizing b0 with
  | nil =>
    intro p hp
    cases hp
  | cons x t ih =>
    intro p hp
    rw [List.foldl_cons]
    rcases List.mem_cons.mp hp with h | h
    · subst h
      refine le_trans ?_ (foldl_bmax_init_le t (bmaxStep b0 p))
      rw [bmaxStep_eq_max]
      exact le_max_right _ _
    · exact ih (bmaxStep b0 x) p h

theorem foldl_bmax_attained (B : Bucket) (b0 : ℚ) :
    B.foldl bmaxStep b0 = b0 ∨ ∃ p ∈ B, B.foldl bmaxStep b0 = p.2.q_weighted := by
  induction B generalizing b0 with
  | nil => exact Or.inl rfl
  | cons x t ih =>
    rw [List.foldl_cons]
    rcases ih (bmaxStep b0 x) with h | h
    · rw [h]
      unfold bmaxStep
      by_cases hx : x.2.q_weighted > b0
      · rw [if_pos hx]
        exact Or.inr ⟨x, List.mem_cons_self x t, rfl⟩
      · rw [if_neg hx]
        exact Or.inl rfl
    · obtain ⟨p, hp, hpe⟩ := h
      exact Or.inr ⟨p, List.mem_cons_of_mem x hp, hpe⟩

/-! ### Claim theorems -/

/-- C1: with `learning_rate = 1`, `discount_factor = 0`, `priming_threshold = 10`,
states `A` and `B` each exposing actions `X`, `Y`, `Z`, after
`learn(A, X, B, 1)` then `learn(A, Y, B, 1)` the stats for `(A,X)` and `(A,Y)`
have `calls = 1`, `raw = 1`, weighted `= bayesian_average 10 1 mean 1`, and
`(A,Z)` has `calls = 0`, `raw = 0`, weighted `= bayesian_average 10 0 mean 0`,
where `mean` is the mean of `A`'s recorded raw values. -/
theorem c1_learn_two_calls :
    (lookupStats (learn (learn agentC1 (some stateA) "X" stateB 1) (some stateA) "Y" stateB 1).qmap
        "A" "X" =
      some ⟨1, 1, bayesian_average 10 1
        (safe_divide
          (rawOf (learn (learn agentC1 (some stateA) "X" stateB 1) (some stateA) "Y" stateB 1).qmap "A" "X" +
           rawOf (learn (learn agentC1 (some stateA) "X" stateB 1) (some stateA) "Y" stateB 1).qmap "A" "Y" +
           rawOf (learn (learn agentC1 (some stateA) "X" stateB 1) (some stateA) "Y" stateB 1).qmap "A" "Z") 3) 1⟩) ∧
    (lookupStats (learn (learn agentC1 (some stateA) "X" stateB 1) (some stateA) "Y" stateB 1).qmap
        "A" "Y" =
      some ⟨1, 1, bayesian_average 10 1
        (safe_divide
          (rawOf (learn (learn agentC1 (some stateA) "X" stateB 1) (some stateA) "Y" stateB 1).qmap "A" "X" +
           rawOf (learn (learn agentC1 (some stateA) "X" stateB 1) (some stateA) "Y" stateB 1).qmap "A" "Y" +
           rawOf (learn (learn agentC1 (some stateA) "X" stateB 1) (some stateA) "Y" stateB 1).qmap "A" "Z") 3) 1⟩) ∧
    (lookupStats (learn (learn agentC1 (some stateA) "X" stateB 1) (some stateA) "Y" stateB 1).qmap
        "A" "Z" =
      some ⟨0, 0, bayesian_average 10 0
        (safe_divide
          (rawOf (learn (learn agentC1 (some stateA) "X" stateB 1) (some stateA) "Y" stateB 1).qmap "A" "X" +
           rawOf (learn (learn agentC1 (some stateA) "X" stateB 1) (some stateA) "Y" stateB 1).qmap "A" "Y" +
           rawOf (learn (learn agentC1 (some stateA) "X" stateB 1) (some stateA) "Y" stateB 1).qmap "A" "Z") 3) 0⟩) := by
  with_unfolding_all decide

/-- C6: `transition` on an incompatible action fails with an error carrying
both the action id and the state id without invoking `apply` (invocation
count 0); on a compatible action it invokes `apply` exactly once and returns
its result unchanged. -/
theorem c6_transition_compat (ag : BayesianAgent) (state : Stater) (a : String) :
    (state.action_is_compatible a = false →
      (transition ag state a).2 =
        (.error ⟨"action " ++ a ++ " is not compatible with state " ++ state.id⟩, 0)) ∧
    (state.action_is_compatible a = true →
      (transition ag state a).2 = (state.apply a, 1)) := by
  constructor
  · intro h
    unfold transition
    rw [h]
    rfl
  · intro h
    unfold transition
    rw [h]
    rfl

/-- Witness for C6 at a concrete state: `stop` is incompatible (error carrying
both ids, `apply` never invoked), `go` is compatible (`apply` invoked once,
result passed through). -/
theorem c6_transition_compat_witness :
    (transition agentEmpty stateGo "stop").2 =
      (.error ⟨"action stop is not compatible with state S"⟩, 0) ∧
    (transition agentEmpty stateGo "go").2 = (.ok (), 1) :=
  ⟨(c6_transition_compat agentEmpty stateGo "stop").1 rfl,
   (c6_transition_compat agentEmpty stateGo "go").2 rfl⟩

/-- C7: `learn` with an absent previous state is a no-op: the agent (and in
particular its action-value table) is returned unchanged. -/
theorem c7_learn_none_noop (ag : BayesianAgent) (action_taken : String)
    (current_state : Stater) (reward : ℚ) :
    learn ag none action_taken current_state reward = ag ∧
      (learn ag none action_taken current_state reward).qmap = ag.qmap :=
  ⟨rfl, rfl⟩

/-- C8: `bayesian_average c n m v` is `(c*m + n*v) / (c + n)` computed with
safe division; `bayesian_average 0 0 m v = 0`; and `safe_divide a b` is 0 when
`b = 0` and `a / b` otherwise. -/
theorem c8_math_kernel (a b c n m v : ℚ) :
    bayesian_average c n m v = safe_divide (c * m + n * v) (c + n) ∧
    bayesian_average 0 0 m v = 0 ∧
    safe_divide a b = (if b = 0 then 0 else a / b) := by
  refine ⟨rfl, ?_, rfl⟩
  unfold bayesian_average safe_divide
  norm_num

theorem recommend_unfold (ag : BayesianAgent) (state : Stater) :
    recommend_action ag state =
      ({ ag with qmap := apply_action_weights ag.priming_threshold ag.qmap state },
        selectFrom ag.tie_breaker state
          (getBucket (apply_action_weights ag.priming_threshold ag.qmap state) state.id)) := rfl

theorem ensureBucket_of_present (q : QMap) (s : String) (b : Bucket)
    (h : getA q s = some b) : ensureBucket q s = q := by
  unfold ensureBucket
  rw [h]

/-- C2 counterexample: for the empty-table agent and a state with no possible
actions, `recommend_action` does mutate the table — it registers an empty
bucket for the state — contradicting the claim that the table is left
completely unchanged. -/
theorem c2_counterexample :
    stateEmpty.possible_actions = [] ∧
    (recommend_action agentEmpty stateEmpty).1.qmap ≠ agentEmpty.qmap := by
  with_unfolding_all decide

/-- C2 (amended): for a state with no possible actions whose bucket in the
table is empty or absent, `recommend_action` fails with the
`NoPossibleActions` error carrying the state id; no stats entry is touched,
but an empty bucket for the state is registered if absent (the table is
`ensureBucket` of the old one, not necessarily equal to it). -/
theorem c2_recommend_no_actions (ag : BayesianAgent) (state : Stater)
    (h1 : state.possible_actions = []) (h2 : getBucket ag.qmap state.id = []) :
    (recommend_action ag state).2 =
      .error ⟨"state " ++ squote ++ state.id ++ squote ++ " reports no possible actions"⟩ ∧
    (recommend_action ag state).1.qmap = ensureBucket ag.qmap state.id ∧
    (∀ s a, lookupStats (recommend_action ag state).1.qmap s a = lookupStats ag.qmap s a) := by
  have hacc : aawAcc ag.qmap state = ⟨0, 0, ag.qmap⟩ := by
    unfold aawAcc
    rw [h1]
    rfl
  have haaw : apply_action_weights ag.priming_threshold ag.qmap state =
      ensureBucket ag.qmap state.id := by
    rw [aaw_unfold, hacc]
    rw [getBucket_ensureBucket, h2]
    simp only [List.map_nil]
    refine setA_of_getA_some _ _ _ ?_
    rw [getA_ensureBucket_self, h2]
  have hbucket : getBucket (apply_action_weights ag.priming_threshold ag.qmap state)
      state.id = [] := by
    rw [haaw, getBucket_ensureBucket, h2]
  refine ⟨?_, ?_, ?_⟩
  · rw [recommend_unfold]
    show selectFrom ag.tie_breaker state _ = _
    rw [hbucket]
    rfl
  · rw [recommend_unfold]
    exact haaw
  · intro s a
    rw [recommend_unfold]
    show lookupStats (apply_action_weights ag.priming_threshold ag.qmap state) s a = _
    rw [haaw, lookupStats_ensureBucket]

/-- Witness for C2 (amended) at the concrete empty-table agent and
action-less state. -/
theorem c2_recommend_no_actions_witness :
    stateEmpty.possible_actions = [] ∧
    getBucket agentEmpty.qmap stateEmpty.id = [] ∧
    (recommend_action agentEmpty stateEmpty).2 =
      .error ⟨"state " ++ squote ++ stateEmpty.id ++ squote ++ " reports no possible actions"⟩ ∧
    (recommend_action agentEmpty stateEmpty).1.qmap =
      ensureBucket agentEmpty.qmap stateEmpty.id :=
  ⟨rfl, rfl, (c2_recommend_no_actions agentEmpty stateEmpty rfl rfl).1,
    (c2_recommend_no_actions agentEmpty stateEmpty rfl rfl).2.1⟩

/-- C5 counterexample: on a table where action `X` of state `A` has raw value
1 but sibling `Y` has no record yet, running the weight-refresh pass twice
does not reproduce the weighted values of running it once (the first run
creates `Y`'s record, changing the mean used by the second run). -/
theorem c5_counterexample :
    (lookupStats (apply_action_weights 1 qC5 stateXY) "A" "Y").map ActionStats.q_weighted ≠
      (lookupStats (apply_action_weights 1 (apply_action_weights 1 qC5 stateXY) stateXY)
        "A" "Y").map ActionStats.q_weighted ∧
    apply_action_weights 1 (apply_action_weights 1 qC5 stateXY) stateXY ≠
      apply_action_weights 1 qC5 stateXY := by
  with_unfolding_all decide

theorem fold_all_present (sid : String) (acts : List String) (q : QMap)
    (h : ∀ a ∈ acts, (lookupStats q sid a).isSome = true) (s0 : ℚ) (c0 : Int) :
    acts.foldl (aaw_step sid) ⟨s0, c0, q⟩ =
      ⟨s0 + (acts.map (fun a => rawOf q sid a)).sum, (c0 + (acts.length : Int)), q⟩ := by
  induction acts generalizing s0 c0 with
  | nil => simp
  | cons a t ih =>
    rw [List.foldl_cons]
    obtain ⟨e, he⟩ := Option.isSome_iff_exists.mp (h a (List.mem_cons_self a t))
    have hstep : aaw_step sid ⟨s0, c0, q⟩ a = ⟨s0 + e.q_raw, c0 + 1, q⟩ := by
      unfold aaw_step
      simp only [he]
    rw [hstep, ih (fun b hb => h b (List.mem_cons_of_mem a hb)) (s0 + e.q_raw) (c0 + 1)]
    have hraw : rawOf q sid a = e.q_raw := by
      unfold rawOf
      rw [he]
      rfl
    refine congrArg₂ (fun x y => FoldAcc.mk x y q) ?_ ?_
    · rw [List.map_cons, List.sum_cons, hraw]
      ring
    · rw [List.length_cons]
      push_cast
      ring

theorem aaw_all_present (pt : Int) (q : QMap) (state : Stater)
    (h : ∀ a ∈ state.possible_actions, (lookupStats q state.id a).isSome = true) :
    apply_action_weights pt q state =
      setA (ensureBucket q state.id) state.id
        ((getBucket q state.id).map (fun p => (p.1, weightFn pt (aawMean q state) p.2))) := by
  have hacc : aawAcc q state =
      ⟨0 + (state.possible_actions.map (fun a => rawOf q state.id a)).sum,
        0 + (state.possible_actions.length : Int), q⟩ := by
    unfold aawAcc
    exact fold_all_present state.id state.possible_actions q h 0 0
  have hq : (aawAcc q state).q = q := by rw [hacc]
  rw [aaw_unfold, hq, getBucket_ensureBucket]

theorem aaw_lookup_self_all (pt : Int) (q : QMap) (state : Stater) (a' : String) :
    lookupStats (apply_action_weights pt q state) state.id a' =
      (lookupStats (aawAcc q state).q state.id a').map (weightFn pt (aawMean q state)) :=
  aaw_lookup_self pt q state a'

theorem aawMean_aaw (pt : Int) (q : QMap) (state : Stater)
    (h : ∀ a ∈ state.possible_actions, (lookupStats q state.id a).isSome = true) :
    aawMean (apply_action_weights pt q state) state = aawMean q state := by
  have hacc : aawAcc q state =
      ⟨0 + (state.possible_actions.map (fun a => rawOf q state.id a)).sum,
        0 + (state.possible_actions.length : Int), q⟩ := by
    unfold aawAcc
    exact fold_all_present state.id state.possible_actions q h 0 0
  have h2 : ∀ a ∈ state.possible_actions,
      (lookupStats (apply_action_weights pt q state) state.id a).isSome = true := by
    intro a ha
    obtain ⟨e, he⟩ := Option.isSome_iff_exists.mp (h a ha)
    rw [aaw_lookup_self, hacc]
    simp only
    rw [he]
    rfl
  have hacc2 : aawAcc (apply_action_weights pt q state) state =
      ⟨0 + (state.possible_actions.map
          (fun a => rawOf (apply_action_weights pt q state) state.id a)).sum,
        0 + (state.possible_actions.length : Int), apply_action_weights pt q state⟩ := by
    unfold aawAcc
    exact fold_all_present state.id state.possible_actions _ h2 0 0
  have hraws : (state.possible_actions.map
      (fun a => rawOf (apply_action_weights pt q state) state.id a)).sum =
      (state.possible_actions.map (fun a => rawOf q state.id a)).sum := by
    refine congrArg List.sum (List.map_congr_left ?_)
    intro a _
    exact (aaw_callsOf pt q state state.id a).2
  unfold aawMean
  rw [hacc, hacc2]
  simp only
  rw [hraws]

theorem weightFn_idem (pt : Int) (m : ℚ) (e : ActionStats) :
    weightFn pt m (weightFn pt m e) = weightFn pt m e := rfl

/-- C5 (amended): the weight-refresh pass is idempotent on every table in
which each of the state's possible actions already has a stats record — in
particular after any single run of the pass.  Without that proviso the pass is
not idempotent (see `c5_counterexample`). -/
theorem c5_refresh_idempotent (pt : Int) (q : QMap) (state : Stater)
    (h : ∀ a ∈ state.possible_actions, (lookupStats q state.id a).isSome = true) :
    apply_action_weights pt (apply_action_weights pt q state) state =
      apply_action_weights pt q state := by
  set q' := apply_action_weights pt q state with hq'
  have h2 : ∀ a ∈ state.possible_actions, (lookupStats q' state.id a).isSome = true := by
    intro a ha
    obtain ⟨e, he⟩ := Option.isSome_iff_exists.mp (h a ha)
    obtain ⟨e', he', _, _⟩ := aaw_present pt q state state.id a e he
    rw [hq', he']
    rfl
  have hm := aawMean_aaw pt q state h
  have hprev : q' = setA (ensureBucket q state.id) state.id
      ((getBucket q state.id).map (fun p => (p.1, weightFn pt (aawMean q state) p.2))) := by
    rw [hq']
    exact aaw_all_present pt q state h
  have hpresent : getA q' state.id = some ((getBucket q state.id).map
      (fun p => (p.1, weightFn pt (aawMean q state) p.2))) := by
    rw [hprev]
    exact getA_setA_self _ _ _
  have hbucket : getBucket q' state.id = (getBucket q state.id).map
      (fun p => (p.1, weightFn pt (aawMean q state) p.2)) := by
    unfold getBucket
    rw [hpresent]
    rfl
  rw [aaw_all_present pt q' state h2, hm,
    ensureBucket_of_present q' state.id _ hpresent, hbucket]
  rw [List.map_map]
  have hmap : ((getBucket q state.id).map
      ((fun p => (p.1, weightFn pt (aawMean q state) p.2)) ∘
        (fun p => (p.1, weightFn pt (aawMean q state) p.2)))) =
      (getBucket q state.id).map (fun p => (p.1, weightFn pt (aawMean q state) p.2)) :=
    List.map_congr_left (fun p _ => rfl)
  rw [hmap, hprev, setA_setA]

/-- Witness for C5 (amended): with both actions of `stateXY` recorded in
`qAllPresent`, a second refresh pass reproduces the first exactly. -/
theorem c5_refresh_idempotent_witness :
    (∀ a ∈ stateXY.possible_actions, (lookupStats qAllPresent stateXY.id a).isSome = true) ∧
    apply_action_weights 7 (apply_action_weights 7 qAllPresent stateXY) stateXY =
      apply_action_weights 7 qAllPresent stateXY :=
  ⟨by decide, c5_refresh_idempotent 7 qAllPresent stateXY (by decide)⟩

theorem learn_unfold (ag : BayesianAgent) (prev : Stater) (a : String) (cur : Stater)
    (reward : ℚ) :
    learn ag (some prev) a cur reward =
      { ag with
        qmap :=
          apply_action_weights ag.priming_threshold
            (update_stats (learnQCur ag prev cur) prev.id a
              (learnNewStats ag prev a cur reward)) prev } := rfl

theorem learnFetched_eq (ag : BayesianAgent) (prev : Stater) (a : String) :
    learnFetched ag prev a = learnOld ag prev a := by
  unfold learnFetched learnOld
  rw [lookupStats_ensureBucket]

theorem learnNewStats_raw (ag : BayesianAgent) (prev : Stater) (a : String) (cur : Stater)
    (reward : ℚ) :
    learnNewStats ag prev a cur reward =
      { learnOld ag prev a with
        call_count := (learnOld ag prev a).call_count + 1,
        q_raw := bellman (learnOld ag prev a).q_weighted ag.learning_rate reward
          ag.discount_factor (learnBest ag prev cur) } := by
  unfold learnNewStats
  rw [learnFetched_eq]

/-- C4: after `learn(Some prev, a, cur, reward)` the record for `(prev, a)`
has raw value `bellman(old.weighted, learning_rate, reward, discount_factor,
best_future)` and call count `old.calls + 1`, where `old` is the record stored
before the call (all-zero if absent) and `best_future` is the running maximum
of the weighted values of `cur`'s recorded actions after refreshing `cur`,
floored at 0 (never negative, and attained or 0). -/
theorem c4_learn_bellman (ag : BayesianAgent) (prev : Stater) (a : String) (cur : Stater)
    (reward : ℚ) :
    (∃ e, lookupStats (learn ag (some prev) a cur reward).qmap prev.id a = some e ∧
      e.q_raw = bellman (learnOld ag prev a).q_weighted ag.learning_rate reward
        ag.discount_factor (learnBest ag prev cur) ∧
      e.call_count = (learnOld ag prev a).call_count + 1) ∧
    learnOld ag prev a = (lookupStats ag.qmap prev.id a).getD ActionStats.default ∧
    0 ≤ learnBest ag prev cur ∧
    (∀ p ∈ getBucket (learnQCur ag prev cur) cur.id, p.2.q_weighted ≤ learnBest ag prev cur) ∧
    (learnBest ag prev cur = 0 ∨
      ∃ p ∈ getBucket (learnQCur ag prev cur) cur.id, learnBest ag prev cur = p.2.q_weighted) := by
  refine ⟨?_, rfl, ?_, ?_, ?_⟩
  · have hup : lookupStats (update_stats (learnQCur ag prev cur) prev.id a
        (learnNewStats ag prev a cur reward)) prev.id a =
        some (learnNewStats ag prev a cur reward) :=
      lookupStats_update_self _ _ _ _
    obtain ⟨e', he', hc, hr⟩ := aaw_present ag.priming_threshold _ prev prev.id a _ hup
    refine ⟨e', ?_, ?_, ?_⟩
    · rw [learn_unfold]
      exact he'
    · rw [hr, learnNewStats_raw]
    · rw [hc, learnNewStats_raw]
  · exact foldl_bmax_init_le _ 0
  · exact foldl_bmax_mem_le _ 0
  · exact foldl_bmax_attained _ 0

/-- Witness for C4: in the concrete two-state scenario, action `X` of state
`B` is a recorded action of the refreshed current state and its weighted value
is bounded by the (non-negative) best-future value. -/
theorem c4_learn_bellman_witness :
    (∃ e, lookupStats (learn agentC1 (some stateA) "X" stateB 1).qmap stateA.id "X" = some e ∧
      e.q_raw = bellman (learnOld agentC1 stateA "X").q_weighted agentC1.learning_rate 1
        agentC1.discount_factor (learnBest agentC1 stateA stateB) ∧
      e.call_count = (learnOld agentC1 stateA "X").call_count + 1) ∧
    ("X", (⟨0, 0, 0⟩ : ActionStats)) ∈ getBucket (learnQCur agentC1 stateA stateB) stateB.id ∧
    (0 : ℚ) ≤ learnBest agentC1 stateA stateB :=
  ⟨(c4_learn_bellman agentC1 stateA "X" stateB 1).1,
   by with_unfolding_all decide,
   (c4_learn_bellman agentC1 stateA "X" stateB 1).2.2.2.1 ("X", ⟨0, 0, 0⟩)
     (by with_unfolding_all decide)⟩

theorem learn_getA_frame (ag : BayesianAgent) (prev : Stater) (a : String) (cur : Stater)
    (reward : ℚ) (s : String) (h1 : s ≠ prev.id) (h2 : s ≠ cur.id) :
    getA (learn ag (some prev) a cur reward).qmap s = getA ag.qmap s := by
  rw [learn_unfold]
  show getA (apply_action_weights ag.priming_threshold _ prev) s = _
  rw [aaw_getA_ne _ _ prev s h1]
  rw [getA_update_ne _ prev.id a s _ h1]
  unfold learnQCur
  rw [aaw_getA_ne _ _ cur s h2]
  rw [getA_ensureBucket_ne _ prev.id s h1]

theorem learn_callsOf_frame (ag : BayesianAgent) (prev : Stater) (a : String) (cur : Stater)
    (reward : ℚ) (s b : String) (h : ¬ (s = prev.id ∧ b = a)) :
    callsOf (learn ag (some prev) a cur reward).qmap s b = callsOf ag.qmap s b ∧
      rawOf (learn ag (some prev) a cur reward).qmap s b = rawOf ag.qmap s b := by
  rw [learn_unfold]
  have step1 := aaw_callsOf ag.priming_threshold
    (update_stats (learnQCur ag prev cur) prev.id a (learnNewStats ag prev a cur reward)) prev s b
  have step2 : lookupStats (update_stats (learnQCur ag prev cur) prev.id a
      (learnNewStats ag prev a cur reward)) s b = lookupStats (learnQCur ag prev cur) s b :=
    lookupStats_update_ne _ prev.id a s b _ h
  have step3 := aaw_callsOf ag.priming_threshold (ensureBucket ag.qmap prev.id) cur s b
  have step4 : lookupStats (ensureBucket ag.qmap prev.id) s b = lookupStats ag.qmap s b :=
    lookupStats_ensureBucket ag.qmap prev.id s b
  constructor
  · show callsOf (apply_action_weights ag.priming_threshold _ prev) s b = _
    rw [step1.1]
    unfold callsOf
    rw [step2]
    unfold learnQCur
    unfold callsOf at step3
    rw [step3.1, step4]
  · show rawOf (apply_action_weights ag.priming_threshold _ prev) s b = _
    rw [step1.2]
    unfold rawOf
    rw [step2]
    unfold learnQCur
    unfold rawOf at step3
    rw [step3.2, step4]

theorem learn_callsOf_target (ag : BayesianAgent) (prev : Stater) (a : String) (cur : Stater)
    (reward : ℚ) :
    callsOf (learn ag (some prev) a cur reward).qmap prev.id a =
      callsOf ag.qmap prev.id a + 1 := by
  rw [learn_unfold]
  have hup : lookupStats (update_stats (learnQCur ag prev cur) prev.id a
      (learnNewStats ag prev a cur reward)) prev.id a =
      some (learnNewStats ag prev a cur reward) :=
    lookupStats_update_self _ _ _ _
  obtain ⟨e', he', hc, _⟩ := aaw_present ag.priming_threshold _ prev prev.id a _ hup
  show callsOf (apply_action_weights ag.priming_threshold _ prev) prev.id a = _
  unfold callsOf
  rw [he']
  show e'.call_count = _
  rw [hc, learnNewStats_raw]
  rfl

/-- C9: `learn(Some prev, a, cur, reward)` leaves the bucket of every state
other than `prev` and `cur` completely untouched, and for every (state,
action) pair other than `(prev, a)` it changes neither the call count nor the
raw value (missing records it creates are zero-valued in both fields). -/
theorem c9_learn_frame (ag : BayesianAgent) (prev : Stater) (a : String) (cur : Stater)
    (reward : ℚ) :
    (∀ s, s ≠ prev.id → s ≠ cur.id →
      getA (learn ag (some prev) a cur reward).qmap s = getA ag.qmap s) ∧
    (∀ s b, ¬ (s = prev.id ∧ b = a) →
      callsOf (learn ag (some prev) a cur reward).qmap s b = callsOf ag.qmap s b ∧
      rawOf (learn ag (some prev) a cur reward).qmap s b = rawOf ag.qmap s b) :=
  ⟨fun s h1 h2 => learn_getA_frame ag prev a cur reward s h1 h2,
   fun s b h => learn_callsOf_frame ag prev a cur reward s b h⟩

/-- Witness for C9 at the concrete two-state scenario: an unrelated state's
(absent) bucket stays absent, and the call count and raw value of the sibling
action `(A, Y)` are unchanged by `learn(A, X, B, 1)`. -/
theorem c9_learn_frame_witness :
    getA (learn agentC1 (some stateA) "X" stateB 1).qmap "Other" = getA agentC1.qmap "Other" ∧
    callsOf (learn agentC1 (some stateA) "X" stateB 1).qmap "A" "Y" =
      callsOf agentC1.qmap "A" "Y" ∧
    rawOf (learn agentC1 (some stateA) "X" stateB 1).qmap "A" "Y" = rawOf agentC1.qmap "A" "Y" :=
  ⟨(c9_learn_frame agentC1 stateA "X" stateB 1).1 "Other" (by decide) (by decide),
   ((c9_learn_frame agentC1 stateA "X" stateB 1).2 "A" "Y" (by decide)).1,
   ((c9_learn_frame agentC1 stateA "X" stateB 1).2 "A" "Y" (by decide)).2⟩

/-- C10: no agent operation ever decreases a call count, and call counts stay
non-negative: `learn` only ever adds 1 to the target pair's count (creating
zero-valued records otherwise), `recommend_action` changes no call count, and
`transition` does not touch the agent at all. -/
theorem c10_calls_monotone (ag : BayesianAgent) (prev : Option Stater) (a : String)
    (cur : Stater) (reward : ℚ) (state state2 : Stater) (a2 : String) :
    (∀ s b, callsOf ag.qmap s b ≤ callsOf (learn ag prev a cur reward).qmap s b) ∧
    ((∀ s b, 0 ≤ callsOf ag.qmap s b) →
      ∀ s b, 0 ≤ callsOf (learn ag prev a cur reward).qmap s b) ∧
    (∀ s b, callsOf (recommend_action ag state).1.qmap s b = callsOf ag.qmap s b) ∧
    (transition ag state2 a2).1 = ag := by
  have hmono : ∀ s b, callsOf ag.qmap s b ≤ callsOf (learn ag prev a cur reward).qmap s b := by
    intro s b
    cases prev with
    | none => exact le_refl _
    | some p =>
      by_cases h : s = p.id ∧ b = a
      · obtain ⟨h1, h2⟩ := h
        subst h1; subst h2
        rw [learn_callsOf_target ag p b cur reward]
        omega
      · rw [(learn_callsOf_frame ag p a cur reward s b h).1]
  refine ⟨hmono, ?_, ?_, rfl⟩
  · intro h0 s b
    exact le_trans (h0 s b) (hmono s b)
  · intro s b
    rw [recommend_unfold]
    show callsOf (apply_action_weights ag.priming_threshold ag.qmap state) s b = _
    exact (aaw_callsOf ag.priming_threshold ag.qmap state s b).1

/-- Witness for C10: the non-negativity implication discharged at the fresh
agent (all counts are 0), evaluated at the pair `(A, X)` after one `learn`. -/
theorem c10_calls_monotone_witness :
    0 ≤ callsOf (learn agentC1 (some stateA) "X" stateB 1).qmap "A" "X" ∧
    callsOf agentC1.qmap "A" "X" ≤ callsOf (learn agentC1 (some stateA) "X" stateB 1).qmap "A" "X" :=
  ⟨(c10_calls_monotone agentC1 (some stateA) "X" stateB 1 stateA stateA "X").2.1
      (fun _ _ => le_refl 0) "A" "X",
   (c10_calls_monotone agentC1 (some stateA) "X" stateB 1 stateA stateA "X").1 "A" "X"⟩

/-! ### The lexicographic order on ids is total, transitive, antisymmetric -/

theorem strLeAux_total (l1 l2 : List Char) :
    strLeAux l1 l2 = true ∨ strLeAux l2 l1 = true := by
  induction l1 generalizing l2 with
  | nil => exact Or.inl rfl
  | cons a as ih =>
    cases l2 with
    | nil => exact Or.inr rfl
    | cons b bs =>
      rcases Nat.lt_trichotomy a.toNat b.toNat with h | h | h
      · exact Or.inl (by simp [strLeAux, h])
      · have h2 : ¬ a.toNat < b.toNat := by omega
        have h3 : ¬ b.toNat < a.toNat := by omega
        rcases ih bs with hh | hh
        · exact Or.inl (by simp [strLeAux, h2, h3, hh])
        · exact Or.inr (by simp [strLeAux, h2, h3, hh])
      · exact Or.inr (by simp [strLeAux, h])

theorem strLeAux_trans (l1 l2 l3 : List Char) (h12 : strLeAux l1 l2 = true)
    (h23 : strLeAux l2 l3 = true) : strLeAux l1 l3 = true := by
  induction l1 generalizing l2 l3 with
  | nil => rfl
  | cons a as ih =>
    cases l2 with
    | nil => simp [strLeAux] at h12
    | cons b bs =>
      cases l3 with
      | nil => simp [strLeAux] at h23
      | cons c cs =>
        simp only [strLeAux] at h12 h23 ⊢
        by_cases hab : a.toNat < b.toNat
        · by_cases hbc : b.toNat < c.toNat
          · simp [show a.toNat < c.toNat by omega]
          · simp only [if_neg hbc] at h23
            by_cases hcb : c.toNat < b.toNat
            · simp [hcb] at h23
            · simp [show a.toNat < c.toNat by omega]
        · simp only [if_neg hab] at h12
          by_cases hba : b.toNat < a.toNat
          · simp [hba] at h12
          · simp only [if_neg hba] at h12
            have heq : a.toNat = b.toNat := by omega
            by_cases hbc : b.toNat < c.toNat
            · simp [show a.toNat < c.toNat by omega]
            · simp only [if_neg hbc] at h23
              by_cases hcb : c.toNat < b.toNat
              · simp [hcb] at h23
              · simp only [if_neg hcb] at h23
                have h1 : ¬ a.toNat < c.toNat := by omega
                have h2 : ¬ c.toNat < a.toNat := by omega
                simp only [if_neg h1, if_neg h2]
                exact ih bs cs h12 h23

theorem strLeAux_antisymm (l1 l2 : List Char) (h12 : strLeAux l1 l2 = true)
    (h21 : strLeAux l2 l1 = true) : l1 = l2 := by
  induction l1 generalizing l2 with
  | nil =>
    cases l2 with
    | nil => rfl
    | cons b bs => simp [strLeAux] at h21
  | cons a as ih =>
    cases l2 with
    | nil => simp [strLeAux] at h12
    | cons b bs =>
      simp only [strLeAux] at h12 h21
      by_cases hab : a.toNat < b.toNat
      · rw [if_neg (show ¬ b.toNat < a.toNat by omega), if_pos hab] at h21
        cases h21
      · simp only [if_neg hab] at h12
        by_cases hba : b.toNat < a.toNat
        · simp [hba] at h12
        · simp only [if_neg hba] at h12
          rw [if_neg hba, if_neg hab] at h21
          have heq : a = b := by
            have htn : a.toNat = b.toNat := by omega
            exact Char.ext (UInt32.toNat.inj htn)
          rw [heq, ih bs h12 h21]

theorem strLe_total (a b : String) : strLe a b = true ∨ strLe b a = true :=
  strLeAux_total a.data b.data

theorem strLe_trans (a b c : String) (h1 : strLe a b = true) (h2 : strLe b c = true) :
    strLe a c = true :=
  strLeAux_trans a.data b.data c.data h1 h2

theorem strLe_antisymm (a b : String) (h1 : strLe a b = true) (h2 : strLe b a = true) :
    a = b := by
  have hd : a.data = b.data := strLeAux_antisymm a.data b.data h1 h2
  cases a
  cases b
  simp_all

/-! ### Permutation invariance of the weight-refresh pass -/

theorem aaw_step_some (sid a : String) (s0 : ℚ) (c0 : Int) (q : QMap) (e : ActionStats)
    (h : lookupStats q sid a = some e) :
    aaw_step sid ⟨s0, c0, q⟩ a = ⟨s0 + e.q_raw, c0 + 1, q⟩ := by
  unfold aaw_step
  simp only [h]

theorem aaw_step_none (sid a : String) (s0 : ℚ) (c0 : Int) (q : QMap)
    (h : lookupStats q sid a = none) :
    aaw_step sid ⟨s0, c0, q⟩ a = ⟨s0, c0, update_stats q sid a ActionStats.default⟩ := by
  unfold aaw_step
  simp only [h]

theorem nodupKeys_of_perm {α : Type} {l1 l2 : List (String × α)} (h : l1.Perm l2)
    (hn : NodupKeys l2) : NodupKeys l1 := by
  unfold NodupKeys at hn ⊢
  exact ((h.map Prod.fst).nodup_iff).mpr hn

theorem aaw_fold_perm (sid : String) (acts : List String) :
    ∀ (qA : QMap) (bA bB : Bucket) (s0 : ℚ) (c0 : Int),
      getA qA sid = some bA → NodupKeys bA → bB.Perm bA →
      ∃ bA' bB',
        getA (acts.foldl (aaw_step sid) ⟨s0, c0, qA⟩).q sid = some bA' ∧
        NodupKeys bA' ∧ bB'.Perm bA' ∧
        acts.foldl (aaw_step sid) ⟨s0, c0, setA qA sid bB⟩ =
          ⟨(acts.foldl (aaw_step sid) ⟨s0, c0, qA⟩).raw_value_sum,
           (acts.foldl (aaw_step sid) ⟨s0, c0, qA⟩).existing_action_count,
           setA (acts.foldl (aaw_step sid) ⟨s0, c0, qA⟩).q sid bB'⟩ := by
  induction acts with
  | nil =>
    intro qA bA bB s0 c0 hA hnd hperm
    exact ⟨bA, bB, hA, hnd, hperm, rfl⟩
  | cons a t ih =>
    intro qA bA bB s0 c0 hA hnd hperm
    have hgbA : getBucket qA sid = bA := by
      unfold getBucket
      rw [hA]
      rfl
    have hlookA : lookupStats qA sid a = getA bA a := by
      unfold lookupStats
      rw [hgbA]
    have hgbB : getBucket (setA qA sid bB) sid = bB := getBucket_setA_self qA sid bB
    have hlookB : lookupStats (setA qA sid bB) sid a = getA bB a := by
      unfold lookupStats
      rw [hgbB]
    have hBA : getA bB a = getA bA a :=
      getA_perm hperm (nodupKeys_of_perm hperm hnd) a
    cases hga : getA bA a with
    | some e =>
      rw [List.foldl_cons, List.foldl_cons,
        aaw_step_some sid a s0 c0 qA e (hlookA.trans hga),
        aaw_step_some sid a s0 c0 (setA qA sid bB) e (hlookB.trans (hBA.trans hga))]
      exact ih qA bA bB (s0 + e.q_raw) (c0 + 1) hA hnd hperm
    | none =>
      have hQA : update_stats qA sid a ActionStats.default =
          setA qA sid (bA ++ [(a, ActionStats.default)]) := by
        unfold update_stats
        rw [ensureBucket_of_present qA sid bA hA, hgbA,
          setA_of_getA_none bA a _ hga]
      have hQB : update_stats (setA qA sid bB) sid a ActionStats.default =
          setA qA sid (bB ++ [(a, ActionStats.default)]) := by
        unfold update_stats
        rw [ensureBucket_of_present (setA qA sid bB) sid bB (getA_setA_self qA sid bB), hgbB,
          setA_of_getA_none bB a _ (hBA.trans hga), setA_setA]
      rw [List.foldl_cons, List.foldl_cons,
        aaw_step_none sid a s0 c0 qA (hlookA.trans hga),
        aaw_step_none sid a s0 c0 (setA qA sid bB) (hlookB.trans (hBA.trans hga)),
        hQA, hQB]
      have hres := ih (setA qA sid (bA ++ [(a, ActionStats.default)]))
        (bA ++ [(a, ActionStats.default)]) (bB ++ [(a, ActionStats.default)]) s0 c0
        (getA_setA_self _ _ _)
        (nodupKeys_append_single bA a _ hnd hga)
        (hperm.append_right _)
      rw [setA_setA] at hres
      exact hres

/-! ### Characterization of the best-action scan under epsilon separation -/

theorem epsF_pos : 0 < epsF := by norm_num [epsF]

theorem runMax_cons (b0 : ℚ) (p : String × ActionStats) (t : Bucket) :
    runMax b0 (p :: t) = runMax (bmaxStep b0 p) t := rfl

theorem runMax_init_le (b0 : ℚ) (B : Bucket) : b0 ≤ runMax b0 B :=
  foldl_bmax_init_le B b0

theorem tiedOf_cons (p : String × ActionStats) (t : Bucket) (M : ℚ) :
    tiedOf (p :: t) M =
      if p.2.q_weighted = M then (p.1, p.2.q_weighted) :: tiedOf t M else tiedOf t M := by
  unfold tiedOf
  rw [List.filter_cons]
  by_cases h : p.2.q_weighted = M
  · simp [h]
  · simp [h]

theorem bestStep_gt (acc : List (String × ℚ) × ℚ) (p : String × ActionStats)
    (h : acc.2 < p.2.q_weighted) :
    bestStep acc p = ([(p.1, p.2.q_weighted)], p.2.q_weighted) := by
  unfold bestStep
  rw [if_pos h]

theorem bestStep_near (acc : List (String × ℚ) × ℚ) (p : String × ActionStats)
    (h : ¬ acc.2 < p.2.q_weighted) (h2 : |p.2.q_weighted - acc.2| < epsF) :
    bestStep acc p = (acc.1 ++ [(p.1, p.2.q_weighted)], acc.2) := by
  unfold bestStep
  rw [if_neg h, if_pos h2]

theorem bestStep_far (acc : List (String × ℚ) × ℚ) (p : String × ActionStats)
    (h : ¬ acc.2 < p.2.q_weighted) (h2 : ¬ |p.2.q_weighted - acc.2| < epsF) :
    bestStep acc p = acc := by
  unfold bestStep
  rw [if_neg h, if_neg h2]

theorem best_fold_char (B : Bucket) :
    ∀ (L0 : List (String × ℚ)) (b0 : ℚ),
      (∀ p ∈ B, p.2.q_weighted ≠ b0 → p.2.q_weighted < b0 → epsF ≤ b0 - p.2.q_weighted) →
      (∀ p ∈ B, ∀ r ∈ B, p.2.q_weighted = r.2.q_weighted ∨
        epsF ≤ |p.2.q_weighted - r.2.q_weighted|) →
      B.foldl bestStep (L0, b0) =
        (if runMax b0 B = b0 then L0 ++ tiedOf B (runMax b0 B) else tiedOf B (runMax b0 B),
          runMax b0 B) := by
  induction B with
  | nil =>
    intro L0 b0 h1 h2
    simp [runMax, tiedOf]
  | cons p t ih =>
    intro L0 b0 h1 h2
    have h1t : ∀ r ∈ t, r.2.q_weighted ≠ b0 → r.2.q_weighted < b0 →
        epsF ≤ b0 - r.2.q_weighted :=
      fun r hr => h1 r (List.mem_cons_of_mem p hr)
    have h2t : ∀ r ∈ t, ∀ s ∈ t, r.2.q_weighted = s.2.q_weighted ∨
        epsF ≤ |r.2.q_weighted - s.2.q_weighted| :=
      fun r hr s hs => h2 r (List.mem_cons_of_mem p hr) s (List.mem_cons_of_mem p hs)
    rcases lt_trichotomy b0 p.2.q_weighted with hlt | heq | hgt
    · -- strictly better: the candidate list resets
      have hstep : bestStep (L0, b0) p = ([(p.1, p.2.q_weighted)], p.2.q_weighted) :=
        bestStep_gt (L0, b0) p hlt
      have hbmax : bmaxStep b0 p = p.2.q_weighted := by
        unfold bmaxStep
        rw [if_pos hlt]
      have h1v : ∀ r ∈ t, r.2.q_weighted ≠ p.2.q_weighted →
          r.2.q_weighted < p.2.q_weighted → epsF ≤ p.2.q_weighted - r.2.q_weighted := by
        intro r hr hne hltr
        rcases h2 p (List.mem_cons_self p t) r (List.mem_cons_of_mem p hr) with hh | hh
        · exact absurd hh.symm hne
        · rwa [abs_of_pos (sub_pos.mpr hltr)] at hh
      rw [List.foldl_cons, hstep, ih [(p.1, p.2.q_weighted)] p.2.q_weighted h1v h2t,
        runMax_cons, hbmax]
      have hMv : p.2.q_weighted ≤ runMax p.2.q_weighted t := runMax_init_le _ t
      have hMb0 : runMax p.2.q_weighted t ≠ b0 := by
        intro hcontra
        rw [hcontra] at hMv
        exact absurd hlt (not_lt.mpr hMv)
      rw [if_neg hMb0, tiedOf_cons]
      by_cases hv : p.2.q_weighted = runMax p.2.q_weighted t
      · rw [if_pos hv.symm, if_pos hv]
        rfl
      · rw [if_neg (fun hh => hv hh.symm), if_neg hv]
    · -- equal to the running best: appended to the candidate list
      have hstep : bestStep (L0, b0) p = (L0 ++ [(p.1, p.2.q_weighted)], b0) := by
        refine bestStep_near (L0, b0) p ?_ ?_
        · rw [← heq]
          exact lt_irrefl b0
        · rw [← heq, sub_self, abs_zero]
          exact epsF_pos
      have hbmax : bmaxStep b0 p = b0 := by
        unfold bmaxStep
        rw [if_neg (by rw [← heq]; exact lt_irrefl b0)]
      rw [List.foldl_cons, hstep, ih (L0 ++ [(p.1, p.2.q_weighted)]) b0 h1t h2t,
        runMax_cons, hbmax, tiedOf_cons]
      by_cases hM : runMax b0 t = b0
      · rw [if_pos hM, if_pos hM, if_pos (heq.symm.trans hM.symm)]
        rw [List.append_assoc]
        rfl
      · rw [if_neg hM, if_neg hM, if_neg (fun hh => hM (heq.trans hh).symm)]
    · -- strictly below the running best by at least epsilon: skipped
      have hfar : epsF ≤ b0 - p.2.q_weighted :=
        h1 p (List.mem_cons_self p t) (ne_of_lt hgt) hgt
      have hstep : bestStep (L0, b0) p = (L0, b0) := by
        refine bestStep_far (L0, b0) p (not_lt.mpr hgt.le) ?_
        rw [abs_of_neg (sub_neg.mpr hgt), neg_sub]
        exact not_lt.mpr hfar
      have hbmax : bmaxStep b0 p = b0 := by
        unfold bmaxStep
        rw [if_neg (not_lt.mpr hgt.le)]
      rw [List.foldl_cons, hstep, ih L0 b0 h1t h2t, runMax_cons, hbmax, tiedOf_cons]
      have hvM : p.2.q_weighted ≠ runMax b0 t := by
        have hb0M : b0 ≤ runMax b0 t := runMax_init_le b0 t
        intro hcontra
        rw [hcontra] at hgt
        exact absurd (lt_of_le_of_lt hb0M hgt) (lt_irrefl _)
      rw [if_neg hvM]

theorem perm_isEmpty {α : Type} {l1 l2 : List α} (h : l1.Perm l2) :
    l1.isEmpty = l2.isEmpty := by
  cases l1 with
  | nil =>
    have h2 : l2 = [] := h.symm.eq_nil
    rw [h2]
  | cons a t =>
    cases l2 with
    | nil => exact absurd h.eq_nil (by simp)
    | cons b u => rfl

theorem selectFrom_perm (tb : Nat → Nat) (state : Stater) (B1 B2 : Bucket)
    (hperm : B2.Perm B1)
    (hfloor : ∀ p ∈ B1, -f64Max < p.2.q_weighted)
    (hsep : ∀ p ∈ B1, ∀ r ∈ B1, p.2.q_weighted = r.2.q_weighted ∨
      epsF ≤ |p.2.q_weighted - r.2.q_weighted|) :
    selectFrom tb state B2 = selectFrom tb state B1 := by
  have hfloor2 : ∀ p ∈ B2, -f64Max < p.2.q_weighted :=
    fun p hp => hfloor p (hperm.mem_iff.mp hp)
  have hsep2 : ∀ p ∈ B2, ∀ r ∈ B2, p.2.q_weighted = r.2.q_weighted ∨
      epsF ≤ |p.2.q_weighted - r.2.q_weighted| :=
    fun p hp r hr => hsep p (hperm.mem_iff.mp hp) r (hperm.mem_iff.mp hr)
  have h1A : ∀ p ∈ B1, p.2.q_weighted ≠ -f64Max → p.2.q_weighted < -f64Max →
      epsF ≤ -f64Max - p.2.q_weighted :=
    fun p hp _ hlt => absurd hlt (not_lt.mpr (hfloor p hp).le)
  have h1B : ∀ p ∈ B2, p.2.q_weighted ≠ -f64Max → p.2.q_weighted < -f64Max →
      epsF ≤ -f64Max - p.2.q_weighted :=
    fun p hp _ hlt => absurd hlt (not_lt.mpr (hfloor2 p hp).le)
  haveI : RightCommutative bmaxStep :=
    ⟨fun b p r => by
      rw [bmaxStep_eq_max, bmaxStep_eq_max, bmaxStep_eq_max, bmaxStep_eq_max,
        max_assoc, max_comm p.2.q_weighted r.2.q_weighted, ← max_assoc]⟩
  have hM : runMax (-f64Max) B2 = runMax (-f64Max) B1 := hperm.foldl_eq (-f64Max)
  have hcA : B1.foldl bestStep ([], -f64Max) =
      (tiedOf B1 (runMax (-f64Max) B1), runMax (-f64Max) B1) := by
    rw [best_fold_char B1 [] (-f64Max) h1A hsep]
    congr 1
    split <;> simp
  have hcB : B2.foldl bestStep ([], -f64Max) =
      (tiedOf B2 (runMax (-f64Max) B1), runMax (-f64Max) B1) := by
    rw [best_fold_char B2 [] (-f64Max) h1B hsep2, hM]
    congr 1
    split <;> simp
  have htied : (tiedOf B2 (runMax (-f64Max) B1)).Perm (tiedOf B1 (runMax (-f64Max) B1)) := by
    unfold tiedOf
    exact (hperm.filter _).map _
  have hempty : (tiedOf B2 (runMax (-f64Max) B1)).isEmpty =
      (tiedOf B1 (runMax (-f64Max) B1)).isEmpty := perm_isEmpty htied
  haveI : IsTotal String (fun a b => strLe a b = true) := ⟨strLe_total⟩
  haveI : IsTrans String (fun a b => strLe a b = true) := ⟨strLe_trans⟩
  haveI : IsAntisymm String (fun a b => strLe a b = true) := ⟨strLe_antisymm⟩
  have hsorted : ((tiedOf B2 (runMax (-f64Max) B1)).map Prod.fst).insertionSort
        (fun a b => strLe a b = true) =
      ((tiedOf B1 (runMax (-f64Max) B1)).map Prod.fst).insertionSort
        (fun a b => strLe a b = true) := by
    refine List.eq_of_perm_of_sorted ?_ (List.sorted_insertionSort _ _)
      (List.sorted_insertionSort _ _)
    exact (List.perm_insertionSort _ _).trans
      ((htied.map _).trans (List.perm_insertionSort _ _).symm)
  simp only [selectFrom]
  rw [hcA, hcB]
  simp only
  rw [hempty, hsorted]

set_option maxRecDepth 10000 in
/-- C3 counterexample: two agents whose tables hold the same (state, action)
records for state `S` — only in opposite hash-map iteration orders — with the
same constant tie-breaker, return different action ids from
`recommend_action`: the two weighted values differ by `2^-53 < f64::EPSILON`,
so the epsilon tie-collection is iteration-order dependent. -/
theorem c3_counterexample :
    bucketQP.Perm bucketPQ ∧ NodupKeys bucketPQ ∧
    (recommend_action (agentWith bucketPQ) statePQ).2 = .ok "Q" ∧
    (recommend_action (agentWith bucketQP) statePQ).2 = .ok "P" := by
  refine ⟨?_, ?_, ?_, ?_⟩
  · exact List.Perm.swap _ _ _
  · unfold NodupKeys
    with_unfolding_all decide
  · with_unfolding_all decide
  · with_unfolding_all decide

/-- C3 (amended): with a fixed deterministic tie-breaker, the result of
`recommend_action` is independent of the table's iteration order over the
state's actions — two tables holding the state's bucket in any two orders give
the same result — provided any two weighted values of the refreshed bucket are
either equal or at least `f64::EPSILON` apart (and all exceed `-f64::MAX`).
Without the separation proviso the result is order dependent
(see `c3_counterexample`). -/
theorem c3_recommend_order_independent (ag : BayesianAgent) (state : Stater)
    (b1 b2 : Bucket)
    (hb1 : getA ag.qmap state.id = some b1)
    (hnd : NodupKeys b1)
    (hperm : b2.Perm b1)
    (hfloor : ∀ p ∈ getBucket (apply_action_weights ag.priming_threshold ag.qmap state)
      state.id, -f64Max < p.2.q_weighted)
    (hsep : ∀ p ∈ getBucket (apply_action_weights ag.priming_threshold ag.qmap state)
      state.id, ∀ r ∈ getBucket (apply_action_weights ag.priming_threshold ag.qmap state)
      state.id, p.2.q_weighted = r.2.q_weighted ∨
        epsF ≤ |p.2.q_weighted - r.2.q_weighted|) :
    (recommend_action { ag with qmap := setA ag.qmap state.id b2 } state).2 =
      (recommend_action ag state).2 := by
  obtain ⟨bA', bB', hA', hnd', hperm', hfoldB⟩ :=
    aaw_fold_perm state.id state.possible_actions ag.qmap b1 b2 0 0 hb1 hnd hperm
  have hA0 : getA (aawAcc ag.qmap state).q state.id = some bA' := hA'
  have hgbA : getBucket (aawAcc ag.qmap state).q state.id = bA' := by
    unfold getBucket
    rw [hA0]
    rfl
  have hB1 : getBucket (apply_action_weights ag.priming_threshold ag.qmap state) state.id =
      bA'.map (fun p => (p.1, weightFn ag.priming_threshold (aawMean ag.qmap state) p.2)) := by
    rw [aaw_unfold, getBucket_setA_self, getBucket_ensureBucket, hgbA]
  have hacc2 : aawAcc (setA ag.qmap state.id b2) state =
      ⟨(aawAcc ag.qmap state).raw_value_sum, (aawAcc ag.qmap state).existing_action_count,
        setA (aawAcc ag.qmap state).q state.id bB'⟩ := hfoldB
  have hmean2 : aawMean (setA ag.qmap state.id b2) state = aawMean ag.qmap state := by
    unfold aawMean
    rw [hacc2]
  have hq2 : (aawAcc (setA ag.qmap state.id b2) state).q =
      setA (aawAcc ag.qmap state).q state.id bB' := by rw [hacc2]
  have hB2 : getBucket (apply_action_weights ag.priming_threshold
      (setA ag.qmap state.id b2) state) state.id =
      bB'.map (fun p => (p.1, weightFn ag.priming_threshold (aawMean ag.qmap state) p.2)) := by
    rw [aaw_unfold, getBucket_setA_self, getBucket_ensureBucket, hq2, getBucket_setA_self]
    simp only [hmean2]
  have hpermB : (getBucket (apply_action_weights ag.priming_threshold
      (setA ag.qmap state.id b2) state) state.id).Perm
      (getBucket (apply_action_weights ag.priming_threshold ag.qmap state) state.id) := by
    rw [hB1, hB2]
    exact hperm'.map _
  exact selectFrom_perm ag.tie_breaker state _ _ hpermB hfloor hsep

set_option maxRecDepth 10000 in
/-- Witness for C3 (amended): a state-`S` bucket with two all-zero records,
stored in reversed order, still yields the same recommendation. -/
theorem c3_recommend_order_independent_witness :
    (recommend_action { agentWith [("P", ⟨0, 0, 0⟩), ("Q", ⟨0, 0, 0⟩)] with
        qmap := setA (agentWith [("P", ⟨0, 0, 0⟩), ("Q", ⟨0, 0, 0⟩)]).qmap statePQ.id
          [("Q", ⟨0, 0, 0⟩), ("P", ⟨0, 0, 0⟩)] } statePQ).2 =
      (recommend_action (agentWith [("P", ⟨0, 0, 0⟩), ("Q", ⟨0, 0, 0⟩)]) statePQ).2 :=
  c3_recommend_order_independent (agentWith [("P", ⟨0, 0, 0⟩), ("Q", ⟨0, 0, 0⟩)]) statePQ
    [("P", ⟨0, 0, 0⟩), ("Q", ⟨0, 0, 0⟩)] [("Q", ⟨0, 0, 0⟩), ("P", ⟨0, 0, 0⟩)]
    (by with_unfolding_all decide) (by unfold NodupKeys; with_unfolding_all decide)
    (List.Perm.swap _ _ _) (by with_unfolding_all decide) (by with_unfolding_all decide)
